import Mathlib

/-
Verification of the chess-analyzer session state machine
(src/chess_analyzer.py) against its natural-language specification.

The program is a single-script interactive app.  On every user interaction
the whole script re-runs top to bottom:
  1. the eval-bar block (lines 60-69) appends one evaluation sample to
     `evals` whenever the game is not over;
  2. at most one of the three button handlers (Play Move, Undo, Reset,
     lines 85-155) then mutates the session state.
We embed the session state, the four kinds of interaction, and the
reachability relation generated by them.  The chess rules library and the
engine binary are external collaborators (spec section 6); they enter the
model as oracles: a `RulesService` of total boolean functions, and an
explicit per-interaction engine response that may fail at each of the
engine calls the Play Move handler makes.
-/

namespace ChessAnalyzer

/-- Kind tag of an engine evaluation: `eval_data["type"]` is `"cp"`
(centipawn) or `"mate"` (forced mate). -/
inductive EvalKind where
  | cp
  | mate
  deriving DecidableEq, Repr

/-- An engine evaluation, the dict `{"type": ..., "value": ...}` returned by
`stockfish.get_evaluation()`. -/
structure Evaluation where
  type : EvalKind
  value : Int
  deriving DecidableEq, Repr

/-- A parsed move: origin square, destination square, optional promotion
piece, squares as (file, rank) with files a-h as 0-7 and ranks 1-8 as 0-7. -/
structure ChessMove where
  from_file : Nat
  from_rank : Nat
  to_file : Nat
  to_rank : Nat
  promotion : Option Char
  deriving DecidableEq, Repr

/-- Modelled from the spec: square parsing inside the move-notation grammar
(spec section 4.2 step 1); the actual parser is `chess.Move.from_uci` in the
external rules library, not part of this repository.  A square is a file
letter `a`-`h` followed by a rank digit `1`-`8`. -/
def squareOfChars (cf cr : Char) : Option (Nat × Nat) :=
  if 'a' ≤ cf ∧ cf ≤ 'h' ∧ '1' ≤ cr ∧ cr ≤ '8' then
    some (cf.toNat - 'a'.toNat, cr.toNat - '1'.toNat)
  else
    none

/-- Modelled from the spec: the move-notation grammar of section 4.2 step 1
(origin square + destination square + optional promotion letter), standing in
for the external `chess.Move.from_uci`.  `none` models the parse exception. -/
def parseUci (s : String) : Option ChessMove :=
  match s.toList with
  | [a, b, c, d] =>
    match squareOfChars a b, squareOfChars c d with
    | some f, some t => some ⟨f.1, f.2, t.1, t.2, none⟩
    | _, _ => none
  | [a, b, c, d, p] =>
    if p = 'q' ∨ p = 'r' ∨ p = 'b' ∨ p = 'n' then
      match squareOfChars a b, squareOfChars c d with
      | some f, some t => some ⟨f.1, f.2, t.1, t.2, some p⟩
      | _, _ => none
    else
      none
  | _ => none

/-- Modelled from the source's use of Python `str.strip()` (line 87):
removes whitespace from both ends of the string.  Defined structurally over
the character list so concrete instances evaluate inside proofs. -/
def strip (s : String) : String :=
  ⟨((s.toList.dropWhile Char.isWhitespace).reverse.dropWhile
      Char.isWhitespace).reverse⟩

/-- The board of the external rules library, abstracted to what the script
observes and mutates: its `move_stack`, the list of moves pushed since the
initial position.  The position itself is determined by this list. -/
structure Board where
  move_stack : List ChessMove
  deriving DecidableEq, Repr

/-- `chess.Board()`: the standard initial position, empty move stack. -/
def Board.initial : Board := ⟨[]⟩

/-- `board.push(move)`: appends the move to the move stack. -/
def Board.push (b : Board) (m : ChessMove) : Board := ⟨b.move_stack ++ [m]⟩

/-- `board.pop()`: removes the most recent move from the move stack. -/
def Board.pop (b : Board) : Board := ⟨b.move_stack.dropLast⟩

/-- The Rules Service oracle (spec section 6): legality of a move in the
position reached by a move list, and terminal-state status of that position.
Kept abstract; theorems about concrete scenarios instantiate it. -/
structure RulesService where
  legal : List ChessMove → ChessMove → Bool
  game_over : List ChessMove → Bool

/-- One row of `st.session_state.move_history` (keys "Your Move",
"Best Move", "Move Quality", "Eval"). -/
structure MoveRecord where
  your_move : String
  best_move : String
  quality : String
  eval : Int
  deriving DecidableEq, Repr

/-- The `st.session_state["last_data"]` summary dict.  `none` models both the
key being absent and the empty dict `{}` written by Reset: the display guard
`if data:` treats them identically. -/
structure LastData where
  user_move : String
  best_move : String
  quality : String
  eval : Evaluation
  deriving DecidableEq, Repr

/-- The whole mutable session state: `st.session_state.board`,
`st.session_state.evals`, `st.session_state.move_history`,
`st.session_state["last_data"]`. -/
structure SessionState where
  board : Board
  evals : List Int
  move_history : List MoveRecord
  last_data : Option LastData
  deriving DecidableEq, Repr

/-- The fresh session built at lines 18-23: initial board, empty `evals`,
empty `move_history`, no `last_data`. -/
def initialState : SessionState :=
  { board := Board.initial, evals := [], move_history := [], last_data := none }

/-- The nested `move_quality` classifier (lines 99-112): `Unclear` on mixed
kinds, otherwise bucketed by `diff = abs(score1["value"] - score2["value"])`. -/
def move_quality (score1 score2 : Evaluation) : String :=
  if score1.type ≠ score2.type then "Unclear ❓"
  else
    let diff := (score1.value - score2.value).natAbs
    if diff < 30 then "Excellent ✅"
    else if diff < 80 then "Good 👍"
    else if diff < 150 then "Inaccuracy ⚠️"
    else if diff < 300 then "Mistake ❌"
    else "Blunder 💥"

/-- Line 65: the sample pushed to `evals` is the raw value for a centipawn
evaluation, and ±1000 for a mate evaluation depending on the sign of the
mate count (`1000 if eval_data["value"] > 0 else -1000`). -/
def evalScore (eval_data : Evaluation) : Int :=
  if eval_data.type = EvalKind.cp then eval_data.value
  else if eval_data.value > 0 then 1000 else -1000

/-- The eval-bar block (lines 62-67), run on every script execution: when the
game is not over, query the engine for the current position's evaluation `e`
and append `evalScore e` to `evals`; otherwise leave the state alone. -/
def renderStep (rules : RulesService) (e : Evaluation) (s : SessionState) :
    SessionState :=
  if rules.game_over s.board.move_stack then s
  else { s with evals := s.evals ++ [evalScore e] }

/-- The engine's behaviour during one Play Move handler run.  The handler
makes a sequence of engine calls (lines 91-97); any of them can raise, and
every raise is caught by the same `except` (line 138).  `ok` carries the
three values the handler consumes: the evaluation after the played move, the
engine's best move, and the evaluation after that best move. -/
inductive PlayEngineResult where
  | ok (played_eval : Evaluation) (best_move : String) (best_eval : Evaluation)
  | errPlayedEval
  | errBestMove (played_eval : Evaluation)
  | errBestEval (played_eval : Evaluation) (best_move : String)
  deriving DecidableEq, Repr

/-- Whether the engine raised at some point of the handler run. -/
def PlayEngineResult.isError : PlayEngineResult → Bool
  | .ok _ _ _ => false
  | .errPlayedEval => true
  | .errBestMove _ => true
  | .errBestEval _ _ => true

/-- How one Play Move handler run ended: success (move applied and
recorded), the `st.error("Illegal move.")` branch, or the `except` branch
(`st.error(f"Invalid move format: ...")`), which also catches engine
exceptions. -/
inductive PlayOutcome where
  | success
  | illegalMoveError
  | exceptionError
  deriving DecidableEq, Repr

/-- The Play Move handler (lines 85-139).  Parse `user_move.strip()`; on
parse failure the `except` branch reports an error and nothing changed.  If
the parsed move is not legal, report "Illegal move." and change nothing.
Otherwise push the move onto the board (line 89) and only then query the
engine; if the engine raises, the `except` branch reports an error with the
pushed move still on the board; on success set `last_data` and append one
row to `move_history`.  Note the handler never touches `evals`. -/
def playMove (rules : RulesService) (user_move : String)
    (engine : PlayEngineResult) (s : SessionState) :
    SessionState × PlayOutcome :=
  match parseUci (strip user_move) with
  | none => (s, PlayOutcome.exceptionError)
  | some move =>
    if rules.legal s.board.move_stack move then
      let board1 := s.board.push move
      match engine with
      | .ok played_eval best_move best_eval =>
        let quality := move_quality played_eval best_eval
        ({ s with
            board := board1
            last_data := some ⟨user_move, best_move, quality, played_eval⟩
            move_history := s.move_history ++
              [⟨user_move, best_move, quality, played_eval.value⟩] },
         PlayOutcome.success)
      | _ => ({ s with board := board1 }, PlayOutcome.exceptionError)
    else
      (s, PlayOutcome.illegalMoveError)

/-- The Undo handler (lines 142-148): if the board's move stack is non-empty,
pop the board, then pop `evals` if non-empty, then pop `move_history` if
non-empty.  (Python `list.pop()` removes the last element.)  The three pops
touch disjoint fields, so the statement sequence is written as one record
update.  `last_data` is never touched. -/
def undoStep (s : SessionState) : SessionState :=
  if s.board.move_stack.isEmpty then s
  else
    { board := s.board.pop
      evals := if s.evals.isEmpty then s.evals else s.evals.dropLast
      move_history :=
        if s.move_history.isEmpty then s.move_history
        else s.move_history.dropLast
      last_data := s.last_data }

/-- The Reset handler (lines 151-155): `board.reset()`, `evals = []`,
`move_history = []`, `last_data = {}` (modelled as `none`, see `LastData`). -/
def resetStep (_ : SessionState) : SessionState :=
  { board := Board.initial, evals := [], move_history := [], last_data := none }

/-- One full user interaction.  Streamlit re-runs the script, so every
interaction first executes the eval-bar block (with the engine's evaluation
`e` of the pre-interaction position) and then the handler of the button that
was pressed, if any.  `render` is an interaction that presses no button
(page load, typing in the input field). -/
inductive Event where
  | render (e : Evaluation)
  | play (user_move : String) (e : Evaluation) (engine : PlayEngineResult)
  | undo (e : Evaluation)
  | reset (e : Evaluation)

/-- The state transition of one interaction: eval-bar block first, then the
pressed handler. -/
def step (rules : RulesService) (ev : Event) (s : SessionState) : SessionState :=
  match ev with
  | .render e => renderStep rules e s
  | .play um e engine => (playMove rules um engine (renderStep rules e s)).1
  | .undo e => undoStep (renderStep rules e s)
  | .reset e => resetStep (renderStep rules e s)

/-- The session states reachable from a fresh session by any sequence of
interactions. -/
inductive Reachable (rules : RulesService) : SessionState → Prop where
  | init : Reachable rules initialState
  | step (ev : Event) (s : SessionState) :
      Reachable rules s → Reachable rules (step rules ev s)

/-- Modelled from the spec: the legal-move set of the standard initial
position under the Rules Service contract of section 6 (the rules library
itself, `python-chess`, is external to this repository).  From the initial
position the legal moves are the sixteen single and double pawn pushes and
the four knight moves. -/
def initialLegalMoves : List ChessMove :=
  ((List.range 8).map fun f => ChessMove.mk f 1 f 2 none) ++
  ((List.range 8).map fun f => ChessMove.mk f 1 f 3 none) ++
  [⟨1, 0, 0, 2, none⟩, ⟨1, 0, 2, 2, none⟩, ⟨6, 0, 5, 2, none⟩, ⟨6, 0, 7, 2, none⟩]

/-- Modelled from the spec: a Rules Service faithful to standard chess for
the positions the concrete scenarios reach (at most one ply from the initial
position).  Legality is asserted only for the initial position, where the
legal set is `initialLegalMoves`; `game_over` is `false`, correct because no
chess game can be over within one ply of the initial position. -/
def stdRules : RulesService where
  legal := fun stack m => stack.isEmpty && initialLegalMoves.contains m
  game_over := fun _ => false

/-! Helper lemmas: the four shapes of one Play Move handler run, and the two
shapes of the eval-bar block. -/

/-- If the move string does not parse, the handler lands in the `except`
branch and the state is untouched. -/
theorem playMove_parse_fail (rules : RulesService) (um : String)
    (engine : PlayEngineResult) (s : SessionState)
    (hp : parseUci (strip um) = none) :
    playMove rules um engine s = (s, PlayOutcome.exceptionError) := by
  simp [playMove, hp]

/-- If the parsed move is not legal, the handler reports "Illegal move." and
the state is untouched. -/
theorem playMove_illegal (rules : RulesService) (um : String)
    (engine : PlayEngineResult) (s : SessionState) (m : ChessMove)
    (hp : parseUci (strip um) = some m)
    (hl : rules.legal s.board.move_stack m = false) :
    playMove rules um engine s = (s, PlayOutcome.illegalMoveError) := by
  simp [playMove, hp, hl]

/-- If the move is legal but the engine raises, the handler lands in the
`except` branch with the move already pushed onto the board and every other
field untouched. -/
theorem playMove_engine_err (rules : RulesService) (um : String)
    (engine : PlayEngineResult) (s : SessionState) (m : ChessMove)
    (hp : parseUci (strip um) = some m)
    (hl : rules.legal s.board.move_stack m = true)
    (herr : engine.isError = true) :
    playMove rules um engine s =
      ({ s with board := s.board.push m }, PlayOutcome.exceptionError) := by
  cases engine with
  | ok pe bm be => exact absurd herr (by simp [PlayEngineResult.isError])
  | errPlayedEval => simp [playMove, hp, hl]
  | errBestMove pe => simp [playMove, hp, hl]
  | errBestEval pe bm => simp [playMove, hp, hl]

/-- If the move is legal and every engine call returns, the handler pushes
the move, overwrites `last_data`, and appends one `move_history` row. -/
theorem playMove_ok (rules : RulesService) (um : String) (s : SessionState)
    (m : ChessMove) (pe be : Evaluation) (bm : String)
    (hp : parseUci (strip um) = some m)
    (hl : rules.legal s.board.move_stack m = true) :
    playMove rules um (PlayEngineResult.ok pe bm be) s =
      ({ s with
          board := s.board.push m
          last_data := some ⟨um, bm, move_quality pe be, pe⟩
          move_history := s.move_history ++
            [⟨um, bm, move_quality pe be, pe.value⟩] },
       PlayOutcome.success) := by
  simp [playMove, hp, hl]

/-- The eval-bar block either does nothing (game over) or appends exactly
one sample (game not over). -/
theorem renderStep_cases (rules : RulesService) (e : Evaluation)
    (s : SessionState) :
    (rules.game_over s.board.move_stack = true ∧ renderStep rules e s = s) ∨
    (rules.game_over s.board.move_stack = false ∧
      renderStep rules e s = { s with evals := s.evals ++ [evalScore e] }) := by
  cases hgo : rules.game_over s.board.move_stack with
  | false => exact Or.inr ⟨rfl, by simp [renderStep, hgo]⟩
  | true => exact Or.inl ⟨rfl, by simp [renderStep, hgo]⟩

/-- The Play Move handler never touches `evals`. -/
theorem playMove_evals (rules : RulesService) (um : String)
    (engine : PlayEngineResult) (s : SessionState) :
    (playMove rules um engine s).1.evals = s.evals := by
  cases hp : parseUci (strip um) with
  | none => rw [playMove_parse_fail rules um engine s hp]
  | some m =>
    cases hl : rules.legal s.board.move_stack m with
    | false => rw [playMove_illegal rules um engine s m hp hl]
    | true =>
      cases engine with
      | ok pe bm be => rw [playMove_ok rules um s m pe be bm hp hl]
      | errPlayedEval =>
        rw [playMove_engine_err rules um PlayEngineResult.errPlayedEval s m hp
          hl rfl]
      | errBestMove pe =>
        rw [playMove_engine_err rules um (PlayEngineResult.errBestMove pe) s m
          hp hl rfl]
      | errBestEval pe bm =>
        rw [playMove_engine_err rules um (PlayEngineResult.errBestEval pe bm) s
          m hp hl rfl]

/-- The eval-bar block never touches the board. -/
theorem renderStep_board (rules : RulesService) (e : Evaluation)
    (s : SessionState) : (renderStep rules e s).board = s.board := by
  unfold renderStep
  split <;> rfl

/-- The eval-bar block never touches the move history. -/
theorem renderStep_history (rules : RulesService) (e : Evaluation)
    (s : SessionState) :
    (renderStep rules e s).move_history = s.move_history := by
  unfold renderStep
  split <;> rfl

/-- The eval-bar block never touches the summary. -/
theorem renderStep_last_data (rules : RulesService) (e : Evaluation)
    (s : SessionState) : (renderStep rules e s).last_data = s.last_data := by
  unfold renderStep
  split <;> rfl

/-- Undo with a non-empty move stack, written as one record update. -/
theorem undoStep_fields (s : SessionState)
    (hne : s.board.move_stack.isEmpty = false) :
    undoStep s =
      { board := s.board.pop
        evals := if s.evals.isEmpty then s.evals else s.evals.dropLast
        move_history :=
          if s.move_history.isEmpty then s.move_history
          else s.move_history.dropLast
        last_data := s.last_data } := by
  simp [undoStep, hne]

/-- Undo with an empty move stack leaves the state untouched. -/
theorem undoStep_empty_stack (s : SessionState)
    (he : s.board.move_stack.isEmpty = true) : undoStep s = s := by
  simp [undoStep, he]

/-- The contract assumption on the Rules Service used by the reachability
invariants: a position that is game over offers no legal move.  (It holds
vacuously for `stdRules`, whose `game_over` is constantly `false`.) -/
def gameOverNoLegal (rules : RulesService) : Prop :=
  ∀ stack m, rules.game_over stack = true → rules.legal stack m = false

/-- Undo preserves `len(move_history) ≤ len(evals)`. -/
theorem undoStep_hist_le_evals (s : SessionState)
    (h : s.move_history.length ≤ s.evals.length) :
    (undoStep s).move_history.length ≤ (undoStep s).evals.length := by
  cases hne : s.board.move_stack.isEmpty with
  | true => rw [undoStep_empty_stack s hne]; exact h
  | false =>
    rw [undoStep_fields s hne]
    dsimp only
    cases hev : s.evals.isEmpty <;> cases hmh : s.move_history.isEmpty <;>
      (simp_all [List.isEmpty_iff, List.length_dropLast]; try omega)

/-- Undo preserves `len(move_history) ≤ len(board.move_stack)`. -/
theorem undoStep_hist_le_stack (s : SessionState)
    (h : s.move_history.length ≤ s.board.move_stack.length) :
    (undoStep s).move_history.length ≤
      (undoStep s).board.move_stack.length := by
  cases hne : s.board.move_stack.isEmpty with
  | true => rw [undoStep_empty_stack s hne]; exact h
  | false =>
    rw [undoStep_fields s hne]
    dsimp only [Board.pop]
    have hst : s.board.move_stack ≠ [] := by
      simp_all [List.isEmpty_iff]
    have hst1 : 0 < s.board.move_stack.length := List.length_pos.mpr hst
    cases hmh : s.move_history.isEmpty <;>
      (simp_all [List.isEmpty_iff, List.length_dropLast]; try omega)

/-- Every interaction preserves `len(move_history) ≤ len(evals)`, provided
game-over positions have no legal moves (without that assumption a move
played from a game-over position would append a history row while the
eval-bar block skipped its sample). -/
theorem step_hist_le_evals (rules : RulesService) (hco : gameOverNoLegal rules)
    (ev : Event) (s : SessionState)
    (ih : s.move_history.length ≤ s.evals.length) :
    (step rules ev s).move_history.length ≤ (step rules ev s).evals.length := by
  have hrender : ∀ e : Evaluation,
      (renderStep rules e s).move_history.length ≤
        (renderStep rules e s).evals.length := by
    intro e
    rcases renderStep_cases rules e s with ⟨_, ht⟩ | ⟨_, ht⟩ <;> rw [ht]
    · exact ih
    · dsimp only
      simp only [List.length_append, List.length_cons, List.length_nil]
      omega
  cases ev with
  | render e => exact hrender e
  | reset e =>
    show (resetStep (renderStep rules e s)).move_history.length ≤
      (resetStep (renderStep rules e s)).evals.length
    simp [resetStep]
  | undo e => exact undoStep_hist_le_evals _ (hrender e)
  | play um e engine =>
    show (playMove rules um engine (renderStep rules e s)).1.move_history.length ≤
      (playMove rules um engine (renderStep rules e s)).1.evals.length
    cases hp : parseUci (strip um) with
    | none =>
      rw [playMove_parse_fail rules um engine _ hp]
      exact hrender e
    | some m =>
      cases hl : rules.legal (renderStep rules e s).board.move_stack m with
      | false =>
        rw [playMove_illegal rules um engine _ m hp hl]
        exact hrender e
      | true =>
        have hgo : rules.game_over s.board.move_stack = false := by
          cases hgo : rules.game_over s.board.move_stack with
          | false => rfl
          | true =>
            have : rules.legal s.board.move_stack m = false := hco _ m hgo
            rw [renderStep_board] at hl
            rw [hl] at this
            exact absurd this (by simp)
        have ht : renderStep rules e s =
            { s with evals := s.evals ++ [evalScore e] } := by
          rcases renderStep_cases rules e s with ⟨hgo2, _⟩ | ⟨_, ht⟩
          · rw [hgo] at hgo2; exact absurd hgo2 (by simp)
          · exact ht
        cases engine with
        | ok pe bm be =>
          rw [playMove_ok rules um _ m pe be bm hp hl, ht]
          dsimp only
          simp only [List.length_append, List.length_cons, List.length_nil]
          omega
        | errPlayedEval =>
          rw [playMove_engine_err rules um PlayEngineResult.errPlayedEval _ m
            hp hl rfl]
          exact hrender e
        | errBestMove pe =>
          rw [playMove_engine_err rules um (PlayEngineResult.errBestMove pe) _
            m hp hl rfl]
          exact hrender e
        | errBestEval pe bm =>
          rw [playMove_engine_err rules um
            (PlayEngineResult.errBestEval pe bm) _ m hp hl rfl]
          exact hrender e

/-- Every interaction preserves `len(move_history) ≤ len(board.move_stack)`:
a history row is appended only together with a board push, and undo pops the
board whenever it pops the history. -/
theorem step_hist_le_stack (rules : RulesService) (ev : Event)
    (s : SessionState)
    (ih : s.move_history.length ≤ s.board.move_stack.length) :
    (step rules ev s).move_history.length ≤
      (step rules ev s).board.move_stack.length := by
  have hrender : ∀ e : Evaluation,
      (renderStep rules e s).move_history.length ≤
        (renderStep rules e s).board.move_stack.length := by
    intro e
    rw [renderStep_board, renderStep_history]
    exact ih
  cases ev with
  | render e => exact hrender e
  | reset e =>
    show (resetStep (renderStep rules e s)).move_history.length ≤
      (resetStep (renderStep rules e s)).board.move_stack.length
    simp [resetStep, Board.initial]
  | undo e => exact undoStep_hist_le_stack _ (hrender e)
  | play um e engine =>
    show (playMove rules um engine (renderStep rules e s)).1.move_history.length ≤
      (playMove rules um engine (renderStep rules e s)).1.board.move_stack.length
    cases hp : parseUci (strip um) with
    | none =>
      rw [playMove_parse_fail rules um engine _ hp]
      exact hrender e
    | some m =>
      cases hl : rules.legal (renderStep rules e s).board.move_stack m with
      | false =>
        rw [playMove_illegal rules um engine _ m hp hl]
        exact hrender e
      | true =>
        have hr := hrender e
        cases engine with
        | ok pe bm be =>
          rw [playMove_ok rules um _ m pe be bm hp hl]
          dsimp only [Board.push]
          simp only [List.length_append, List.length_cons, List.length_nil]
          omega
        | errPlayedEval =>
          rw [playMove_engine_err rules um PlayEngineResult.errPlayedEval _ m
            hp hl rfl]
          dsimp only [Board.push]
          simp only [List.length_append, List.length_cons, List.length_nil]
          omega
        | errBestMove pe =>
          rw [playMove_engine_err rules um (PlayEngineResult.errBestMove pe) _
            m hp hl rfl]
          dsimp only [Board.push]
          simp only [List.length_append, List.length_cons, List.length_nil]
          omega
        | errBestEval pe bm =>
          rw [playMove_engine_err rules um
            (PlayEngineResult.errBestEval pe bm) _ m hp hl rfl]
          dsimp only [Board.push]
          simp only [List.length_append, List.length_cons, List.length_nil]
          omega

/-- Reachability invariant: the move history is never longer than the
evaluation-sample sequence (under the game-over contract assumption). -/
theorem reachable_hist_le_evals (rules : RulesService)
    (hco : gameOverNoLegal rules) (s : SessionState) (h : Reachable rules s) :
    s.move_history.length ≤ s.evals.length := by
  induction h with
  | init => exact Nat.le_refl 0
  | step ev t ht ih => exact step_hist_le_evals rules hco ev t ih

/-- Reachability invariant: the move history is never longer than the
board's move stack. -/
theorem reachable_hist_le_stack (rules : RulesService) (s : SessionState)
    (h : Reachable rules s) :
    s.move_history.length ≤ s.board.move_stack.length := by
  induction h with
  | init => exact Nat.le_refl 0
  | step ev t ht ih => exact step_hist_le_stack rules ev t ih

/-! Concrete scenario states used by counterexamples and witnesses. -/

/-- A concrete engine evaluation used by the concrete scenarios. -/
def cpZero : Evaluation := ⟨EvalKind.cp, 0⟩

/-- The session state after the very first render of a fresh session: the
eval-bar block has appended one sample, no move has been played. -/
def afterFirstRender : SessionState :=
  step stdRules (Event.render cpZero) initialState

/-! The claims. -/

/-- C1: the spec claims `len(move_history) == len(evaluation_samples)` in
every reachable session state.  This fails at the very first render of a
fresh session, a reachable state with one evaluation sample (appended by the
eval-bar block) and an empty move history. -/
theorem C1_counterexample :
    Reachable stdRules afterFirstRender ∧
    ¬afterFirstRender.move_history.length = afterFirstRender.evals.length :=
  ⟨Reachable.step (Event.render cpZero) initialState Reachable.init, by decide⟩

/-- C1 (amended): in every reachable session state, under a Rules Service
where game-over positions have no legal moves, the move history is never
longer than the evaluation-sample sequence: every interaction that appends a
history row also appends a sample, while renders append samples alone. -/
theorem C1_amended_lockstep (rules : RulesService)
    (hco : gameOverNoLegal rules) (s : SessionState) (h : Reachable rules s) :
    s.move_history.length ≤ s.evals.length :=
  reachable_hist_le_evals rules hco s h

/-- C1 witness: the amended inequality at the concrete reachable state after
one render. -/
theorem C1_amended_lockstep_witness :
    afterFirstRender.move_history.length ≤ afterFirstRender.evals.length :=
  C1_amended_lockstep stdRules (fun _ _ hgo => Bool.noConfusion hgo)
    afterFirstRender
    (Reachable.step (Event.render cpZero) initialState Reachable.init)

/-- The handler result when the engine raises on its first evaluation after
a legal "e2e4" was pushed from a fresh session. -/
def engineFailurePlay : SessionState × PlayOutcome :=
  playMove stdRules "e2e4" PlayEngineResult.errPlayedEval initialState

/-- C2: the spec claims that on any Rules/Engine exception the session state
is exactly what it was before the submission.  This fails: when the engine
raises after the legality check, the move has already been pushed onto the
board (line 89 precedes the engine calls), so the reported-error state has a
longer move stack than before. -/
theorem C2_counterexample :
    engineFailurePlay.2 = PlayOutcome.exceptionError ∧
    ¬engineFailurePlay.1 = initialState ∧
    engineFailurePlay.1.board.move_stack = [⟨4, 1, 4, 3, none⟩] := by
  decide

/-- C2 (amended): on a parse exception or an illegal move the state is fully
unchanged and an error is reported; on an engine exception raised after a
legal move was pushed, an error is reported and move history, evaluation
samples and summary are unchanged, but the current position keeps the pushed
move. -/
theorem C2_amended_error_isolation (rules : RulesService) (um : String)
    (engine : PlayEngineResult) (s : SessionState)
    (herr : engine.isError = true) :
    (parseUci (strip um) = none →
      playMove rules um engine s = (s, PlayOutcome.exceptionError)) ∧
    (∀ m, parseUci (strip um) = some m →
      rules.legal s.board.move_stack m = false →
      playMove rules um engine s = (s, PlayOutcome.illegalMoveError)) ∧
    (∀ m, parseUci (strip um) = some m →
      rules.legal s.board.move_stack m = true →
      (playMove rules um engine s).2 = PlayOutcome.exceptionError ∧
      (playMove rules um engine s).1.move_history = s.move_history ∧
      (playMove rules um engine s).1.evals = s.evals ∧
      (playMove rules um engine s).1.last_data = s.last_data ∧
      (playMove rules um engine s).1.board = s.board.push m) := by
  refine ⟨fun hp => playMove_parse_fail rules um engine s hp,
    fun m hp hl => playMove_illegal rules um engine s m hp hl,
    fun m hp hl => ?_⟩
  rw [playMove_engine_err rules um engine s m hp hl herr]
  exact ⟨rfl, rfl, rfl, rfl, rfl⟩

/-- C2 witness: the amended statement at the concrete engine-failure
scenario on "e2e4" from a fresh session. -/
theorem C2_amended_error_isolation_witness :
    (playMove stdRules "e2e4" PlayEngineResult.errPlayedEval initialState).2 =
      PlayOutcome.exceptionError ∧
    (playMove stdRules "e2e4" PlayEngineResult.errPlayedEval
        initialState).1.move_history = initialState.move_history ∧
    (playMove stdRules "e2e4" PlayEngineResult.errPlayedEval
        initialState).1.evals = initialState.evals ∧
    (playMove stdRules "e2e4" PlayEngineResult.errPlayedEval
        initialState).1.last_data = initialState.last_data ∧
    (playMove stdRules "e2e4" PlayEngineResult.errPlayedEval
        initialState).1.board = initialState.board.push ⟨4, 1, 4, 3, none⟩ :=
  (C2_amended_error_isolation stdRules "e2e4" PlayEngineResult.errPlayedEval
    initialState rfl).2.2 ⟨4, 1, 4, 3, none⟩ (by decide) (by decide)

/-- C3: for same-kind evaluation pairs the quality label is determined by
`diff = |eval_played.value - eval_best.value|` with half-open
lower-inclusive buckets (`<30` Excellent, `30-79` Good, `80-149` Inaccuracy,
`150-299` Mistake, `≥300` Blunder); in particular diffs of exactly 29, 30,
79, 80, 149, 150, 299, 300 map to Excellent, Good, Good, Inaccuracy,
Inaccuracy, Mistake, Mistake, Blunder. -/
theorem C3_quality_buckets (e1 e2 : Evaluation) (h : e1.type = e2.type) :
    (((e1.value - e2.value).natAbs < 30 →
        move_quality e1 e2 = "Excellent ✅") ∧
      (30 ≤ (e1.value - e2.value).natAbs ∧
          (e1.value - e2.value).natAbs < 80 →
        move_quality e1 e2 = "Good 👍") ∧
      (80 ≤ (e1.value - e2.value).natAbs ∧
          (e1.value - e2.value).natAbs < 150 →
        move_quality e1 e2 = "Inaccuracy ⚠️") ∧
      (150 ≤ (e1.value - e2.value).natAbs ∧
          (e1.value - e2.value).natAbs < 300 →
        move_quality e1 e2 = "Mistake ❌") ∧
      (300 ≤ (e1.value - e2.value).natAbs →
        move_quality e1 e2 = "Blunder 💥")) ∧
    (move_quality ⟨EvalKind.cp, 29⟩ ⟨EvalKind.cp, 0⟩ = "Excellent ✅" ∧
      move_quality ⟨EvalKind.cp, 30⟩ ⟨EvalKind.cp, 0⟩ = "Good 👍" ∧
      move_quality ⟨EvalKind.cp, 79⟩ ⟨EvalKind.cp, 0⟩ = "Good 👍" ∧
      move_quality ⟨EvalKind.cp, 80⟩ ⟨EvalKind.cp, 0⟩ = "Inaccuracy ⚠️" ∧
      move_quality ⟨EvalKind.cp, 149⟩ ⟨EvalKind.cp, 0⟩ = "Inaccuracy ⚠️" ∧
      move_quality ⟨EvalKind.cp, 150⟩ ⟨EvalKind.cp, 0⟩ = "Mistake ❌" ∧
      move_quality ⟨EvalKind.cp, 299⟩ ⟨EvalKind.cp, 0⟩ = "Mistake ❌" ∧
      move_quality ⟨EvalKind.cp, 300⟩ ⟨EvalKind.cp, 0⟩ = "Blunder 💥") := by
  refine ⟨⟨?_, ?_, ?_, ?_, ?_⟩, by decide⟩ <;>
    (intro hd
     unfold move_quality
     rw [if_neg (not_not_intro h)]
     dsimp only
     split_ifs <;> first | rfl | omega)

/-- C3 witness: the bucket characterization applied at the boundary diff 29
for a concrete centipawn pair. -/
theorem C3_quality_buckets_witness :
    move_quality ⟨EvalKind.cp, 29⟩ ⟨EvalKind.cp, 0⟩ = "Excellent ✅" :=
  (C3_quality_buckets ⟨EvalKind.cp, 29⟩ ⟨EvalKind.cp, 0⟩ rfl).1.1 (by decide)

/-- C4: an evaluation pair of differing kinds (one centipawn, one forced
mate) always classifies as Unclear, whatever the numeric values. -/
theorem C4_cross_kind_unclear (e1 e2 : Evaluation) (h : ¬e1.type = e2.type) :
    move_quality e1 e2 = "Unclear ❓" := by
  unfold move_quality
  rw [if_pos h]

/-- C4 witness: a concrete centipawn/mate pair classifies as Unclear. -/
theorem C4_cross_kind_unclear_witness :
    move_quality ⟨EvalKind.cp, 0⟩ ⟨EvalKind.mate, 3⟩ = "Unclear ❓" :=
  C4_cross_kind_unclear ⟨EvalKind.cp, 0⟩ ⟨EvalKind.mate, 3⟩ (by decide)

/-- C5: a well-formed move string that parses to a move outside the current
position's legal set fails through the "Illegal move." branch with no state
change; in particular "e2e5" from the initial position fails that way and
leaves the move history at length 0. -/
theorem C5_illegal_move (rules : RulesService) (um : String)
    (engine : PlayEngineResult) (s : SessionState) (m : ChessMove)
    (hp : parseUci (strip um) = some m)
    (hl : rules.legal s.board.move_stack m = false) :
    playMove rules um engine s = (s, PlayOutcome.illegalMoveError) ∧
    (∀ s0 : SessionState, s0.board.move_stack = [] →
      playMove stdRules "e2e5" engine s0 = (s0, PlayOutcome.illegalMoveError)) ∧
    (playMove stdRules "e2e5" engine initialState).1.move_history.length =
      initialState.move_history.length := by
  have hp5 : parseUci (strip "e2e5") = some ⟨4, 1, 4, 4, none⟩ := by decide
  refine ⟨playMove_illegal rules um engine s m hp hl, fun s0 h0 => ?_, ?_⟩
  · exact playMove_illegal stdRules "e2e5" engine s0 ⟨4, 1, 4, 4, none⟩ hp5
      (by rw [h0]; decide)
  · rw [playMove_illegal stdRules "e2e5" engine initialState ⟨4, 1, 4, 4, none⟩
      hp5 (by decide)]

/-- C5 witness: "e2e5" submitted to a fresh session is rejected as illegal
with the state untouched and the move history still empty. -/
theorem C5_illegal_move_witness :
    playMove stdRules "e2e5" PlayEngineResult.errPlayedEval initialState =
      (initialState, PlayOutcome.illegalMoveError) ∧
    (∀ s0 : SessionState, s0.board.move_stack = [] →
      playMove stdRules "e2e5" PlayEngineResult.errPlayedEval s0 =
        (s0, PlayOutcome.illegalMoveError)) ∧
    (playMove stdRules "e2e5" PlayEngineResult.errPlayedEval
        initialState).1.move_history.length =
      initialState.move_history.length :=
  C5_illegal_move stdRules "e2e5" PlayEngineResult.errPlayedEval initialState
    ⟨4, 1, 4, 4, none⟩ (by decide) (by decide)

/-- The reachable state after a fully successful "e2e4" interaction from a
fresh session: one board move, one render sample, one history row, and a
summary describing the move. -/
def afterE2e4 : SessionState :=
  step stdRules
    (Event.play "e2e4" cpZero (PlayEngineResult.ok cpZero "g1f3" cpZero))
    initialState

/-- The reachable state left by an engine failure while playing "e2e4" from
a fresh session: one pushed board move, one render sample, empty history. -/
def afterEngineFailure : SessionState :=
  step stdRules (Event.play "e2e4" cpZero PlayEngineResult.errPlayedEval)
    initialState

/-- C6: the spec claims undo() with an empty move history is a no-op.  This
fails: the Undo handler's guard is the board's move stack, not the history,
and after an engine failure mid-move the stack is non-empty while the
history is empty, so undo pops the board move and an evaluation sample. -/
theorem C6_counterexample :
    Reachable stdRules afterEngineFailure ∧
    afterEngineFailure.move_history = [] ∧
    ¬undoStep afterEngineFailure = afterEngineFailure :=
  ⟨Reachable.step
      (Event.play "e2e4" cpZero PlayEngineResult.errPlayedEval) initialState
      Reachable.init,
    by decide, by decide⟩

/-- C6 (amended): in every reachable state (Rules Service granting no legal
move once the game is over), undo() with a non-empty move history removes
exactly the most recent MoveRecord and the most recent evaluation sample
(and the most recent board move); undo() is a no-op when the board's move
stack is empty — in particular on a fresh or just-reset session.  The no-op
guard is the move stack, not the history. -/
theorem C6_amended_undo (rules : RulesService) (hco : gameOverNoLegal rules)
    (s : SessionState) (hreach : Reachable rules s) :
    (¬s.move_history = [] →
      (undoStep s).move_history = s.move_history.dropLast ∧
      (undoStep s).evals = s.evals.dropLast ∧
      (undoStep s).board = s.board.pop ∧
      (undoStep s).move_history.length + 1 = s.move_history.length ∧
      (undoStep s).evals.length + 1 = s.evals.length) ∧
    (s.board.move_stack = [] → undoStep s = s) := by
  constructor
  · intro hne
    have hlen1 : 0 < s.move_history.length := List.length_pos.mpr hne
    have hle := reachable_hist_le_evals rules hco s hreach
    have hls := reachable_hist_le_stack rules s hreach
    have hev : ¬s.evals = [] := by
      intro hc
      rw [hc] at hle
      simp only [List.length_nil, Nat.le_zero] at hle
      omega
    have hst : ¬s.board.move_stack = [] := by
      intro hc
      rw [hc] at hls
      simp only [List.length_nil, Nat.le_zero] at hls
      omega
    have hlen2 : 0 < s.evals.length := List.length_pos.mpr hev
    have hstE : s.board.move_stack.isEmpty = false := by
      simp [List.isEmpty_iff, hst]
    have hevE : s.evals.isEmpty = false := by simp [List.isEmpty_iff, hev]
    have hmhE : s.move_history.isEmpty = false := by
      simp [List.isEmpty_iff, hne]
    rw [undoStep_fields s hstE]
    refine ⟨by simp [hmhE], by simp [hevE], rfl, ?_, ?_⟩
    · simp only [hmhE, Bool.false_eq_true, if_false, List.length_dropLast]
      omega
    · simp only [hevE, Bool.false_eq_true, if_false, List.length_dropLast]
      omega
  · intro h0
    exact undoStep_empty_stack s (by simp [h0])

/-- C6 witness: undoing after a successful "e2e4" removes exactly the one
history row, the one evaluation sample and the one board move, and undo on a
fresh session is a no-op. -/
theorem C6_amended_undo_witness :
    ((undoStep afterE2e4).move_history = afterE2e4.move_history.dropLast ∧
      (undoStep afterE2e4).evals = afterE2e4.evals.dropLast ∧
      (undoStep afterE2e4).board = afterE2e4.board.pop ∧
      (undoStep afterE2e4).move_history.length + 1 =
        afterE2e4.move_history.length ∧
      (undoStep afterE2e4).evals.length + 1 = afterE2e4.evals.length) ∧
    undoStep initialState = initialState :=
  ⟨(C6_amended_undo stdRules (fun _ _ hgo => Bool.noConfusion hgo) afterE2e4
      (Reachable.step
        (Event.play "e2e4" cpZero (PlayEngineResult.ok cpZero "g1f3" cpZero))
        initialState Reachable.init)).1 (by decide),
   (C6_amended_undo stdRules (fun _ _ hgo => Bool.noConfusion hgo)
      initialState Reachable.init).2 rfl⟩

/-- C7: reset restores the initial position, empties the move history and
the evaluation samples, clears the summary, and does so unconditionally —
both as the bare handler and as a whole reset interaction. -/
theorem C7_reset (rules : RulesService) (e : Evaluation) (s : SessionState) :
    resetStep s = initialState ∧
    (resetStep s).board = Board.initial ∧
    (resetStep s).move_history = [] ∧
    (resetStep s).evals = [] ∧
    (resetStep s).last_data = none ∧
    step rules (Event.reset e) s = initialState :=
  ⟨rfl, rfl, rfl, rfl, rfl, rfl⟩

/-- C7 witness: resetting the once-rendered session yields exactly the fresh
session. -/
theorem C7_reset_witness :
    resetStep afterFirstRender = initialState ∧
    step stdRules (Event.reset cpZero) afterFirstRender = initialState :=
  ⟨(C7_reset stdRules cpZero afterFirstRender).1,
   (C7_reset stdRules cpZero afterFirstRender).2.2.2.2.2⟩

/-- C8: submitting "e2e4" from the initial position succeeds: exactly one
MoveRecord is produced, its played move is "e2e4", the pushed board move is
e2-e4, and the move history has length 1 afterward. -/
theorem C8_play_e2e4 (pe be : Evaluation) (bm : String) :
    (playMove stdRules "e2e4" (PlayEngineResult.ok pe bm be) initialState).2 =
      PlayOutcome.success ∧
    (playMove stdRules "e2e4" (PlayEngineResult.ok pe bm be)
        initialState).1.move_history =
      [⟨"e2e4", bm, move_quality pe be, pe.value⟩] ∧
    (playMove stdRules "e2e4" (PlayEngineResult.ok pe bm be)
        initialState).1.move_history.length = 1 ∧
    (playMove stdRules "e2e4" (PlayEngineResult.ok pe bm be)
        initialState).1.board.move_stack = [⟨4, 1, 4, 3, none⟩] := by
  rw [playMove_ok stdRules "e2e4" initialState ⟨4, 1, 4, 3, none⟩ pe be bm
    (by decide) (by decide)]
  exact ⟨rfl, rfl, rfl, rfl⟩

/-- C8 witness: the success scenario with a concrete engine reply. -/
theorem C8_play_e2e4_witness :
    (playMove stdRules "e2e4" (PlayEngineResult.ok cpZero "g1f3" cpZero)
        initialState).2 = PlayOutcome.success ∧
    (playMove stdRules "e2e4" (PlayEngineResult.ok cpZero "g1f3" cpZero)
        initialState).1.move_history =
      [⟨"e2e4", "g1f3", move_quality cpZero cpZero, cpZero.value⟩] ∧
    (playMove stdRules "e2e4" (PlayEngineResult.ok cpZero "g1f3" cpZero)
        initialState).1.move_history.length = 1 ∧
    (playMove stdRules "e2e4" (PlayEngineResult.ok cpZero "g1f3" cpZero)
        initialState).1.board.move_stack = [⟨4, 1, 4, 3, none⟩] :=
  C8_play_e2e4 cpZero cpZero "g1f3"

/-- C9: on a render with the game not over, the appended sample is the raw
engine value for a centipawn evaluation and is clamped to +1000 for a
positive forced mate and to -1000 for a non-positive forced mate; mate
counts themselves never enter the sample sequence. -/
theorem C9_eval_sample_clamping (rules : RulesService) (e : Evaluation)
    (s : SessionState) (h : rules.game_over s.board.move_stack = false) :
    (renderStep rules e s).evals = s.evals ++ [evalScore e] ∧
    (e.type = EvalKind.cp → evalScore e = e.value) ∧
    (e.type = EvalKind.mate → 0 < e.value → evalScore e = 1000) ∧
    (e.type = EvalKind.mate → e.value ≤ 0 → evalScore e = -1000) := by
  refine ⟨?_, ?_, ?_, ?_⟩
  · rcases renderStep_cases rules e s with ⟨hgo, _⟩ | ⟨_, ht⟩
    · rw [h] at hgo
      exact absurd hgo (by simp)
    · rw [ht]
  · intro hcp
    simp [evalScore, hcp]
  · intro hm hpos
    simp [evalScore, hm, hpos]
  · intro hm hneg
    have hnp : ¬e.value > 0 := by omega
    simp [evalScore, hm, hnp]

/-- C9 witness: the clamping characterization at a concrete centipawn
evaluation on a fresh session. -/
theorem C9_eval_sample_clamping_witness :
    (renderStep stdRules cpZero initialState).evals =
      initialState.evals ++ [evalScore cpZero] ∧
    (cpZero.type = EvalKind.cp → evalScore cpZero = cpZero.value) ∧
    (cpZero.type = EvalKind.mate → 0 < cpZero.value →
      evalScore cpZero = 1000) ∧
    (cpZero.type = EvalKind.mate → cpZero.value ≤ 0 →
      evalScore cpZero = -1000) :=
  C9_eval_sample_clamping stdRules cpZero initialState rfl

/-- C10: undo never modifies the last-move summary, neither as the bare
handler nor across a whole undo interaction: after undoing, `last_data`
still describes the undone move until a successful submission or a reset
overwrites it. -/
theorem C10_undo_preserves_summary (rules : RulesService) (e : Evaluation)
    (s : SessionState) :
    (undoStep s).last_data = s.last_data ∧
    (step rules (Event.undo e) s).last_data = s.last_data := by
  have hu : ∀ t : SessionState, (undoStep t).last_data = t.last_data := by
    intro t
    cases hne : t.board.move_stack.isEmpty with
    | true => rw [undoStep_empty_stack t hne]
    | false => rw [undoStep_fields t hne]
  refine ⟨hu s, ?_⟩
  show (undoStep (renderStep rules e s)).last_data = s.last_data
  rw [hu (renderStep rules e s), renderStep_last_data]

/-- C10 witness: after the successful "e2e4" the summary survives an undo
interaction unchanged. -/
theorem C10_undo_preserves_summary_witness :
    (undoStep afterE2e4).last_data = afterE2e4.last_data ∧
    (step stdRules (Event.undo cpZero) afterE2e4).last_data =
      afterE2e4.last_data :=
  C10_undo_preserves_summary stdRules cpZero afterE2e4

end ChessAnalyzer
